import Mathlib

/-!
# Verification of the Airbnb listings ingestion core

Shallow embedding of `etl/airbnb_data_ingestion.py`: the schema validator
(`validate_columns`), the eighteen per-column cleaning functions, the
normalization orchestrator (`clean_data`) and the row admission filter
(`reject_bad_rows`), together with proofs about them.

A pandas cell value is modelled by `Value`; floats are modelled by exact
rationals (every float occurring in the pipeline is produced by parsing a
decimal literal), with the distinct per-type missing markers `naInt`
(pandas `<NA>`), `naFloat` (`NaN`) and `naDate` (`NaT`).  A data frame is
an ordered column-name list plus a list of rows, each row an ordered
association list from column name to value.
-/

set_option maxHeartbeats 1000000

namespace Ingestion

/-- An exact decimal number `mant / 10 ^ exp`, the model of the numeric cell
values of this pipeline (every number in it is parsed from a decimal
literal).  Values are kept in the normal form established by `normDec`
(no trailing zero in `mant` while `exp > 0`, and zero is `⟨0, 0⟩`), on
which structural equality coincides with numeric equality. -/
structure Dec where
  mant : Int
  exp : Nat
deriving DecidableEq, Repr

/-- Normalize `m / 10 ^ e` by cancelling factors of ten. -/
def normDec (m : Int) : Nat → Dec
  | 0 => ⟨m, 0⟩
  | e + 1 =>
    if m = 0 then ⟨0, 0⟩
    else if m % 10 = 0 then normDec (m / 10) e
    else ⟨m, e + 1⟩

/-- A pandas cell value.  `null` is a raw missing value (`None`/`NaN` as read
from the CSV); `naInt`/`naFloat`/`naDate` are the typed missing markers
(`<NA>`, `NaN`, `NaT`) produced by the cleaners; `num` covers the numeric
values (int64 and float64 cells, modelled by an exact decimal); `date`
is a `datetime64` cell. -/
inductive Value where
  | null
  | naInt
  | naFloat
  | naDate
  | num (d : Dec)
  | str (s : String)
  | date (y m d : Nat)
deriving DecidableEq, Repr

namespace Value

/-- `pd.isna` on a single cell. -/
def isna : Value → Bool
  | .null | .naInt | .naFloat | .naDate => true
  | _ => false

end Value

/-! ## Python / pandas string primitives -/

/-- The whitespace characters stripped by python's `str.strip()`. -/
def pySpace (c : Char) : Bool :=
  c = ' ' || c = '\t' || c = '\n' || c = '\r' || c = '\x0b' || c = '\x0c'

/-- Strip whitespace from both ends of a character list. -/
def trimChars (cs : List Char) : List Char :=
  List.rdropWhile pySpace (cs.dropWhile pySpace)

/-- Python `str.strip()`. -/
def stripStr (s : String) : String :=
  String.mk (trimChars s.toList)

/-- Zero-pad a string on the left to length `k`. -/
def padZeros (s : String) (k : Nat) : String :=
  String.mk (List.replicate (k - s.length) '0') ++ s

/-- Decimal digit count of a natural number. -/
def natDigits (n : Nat) : Nat := (toString n).length

/-- Fixed-notation rendering of a decimal, python style: minimal digits
(automatic on the normal form), always at least one digit after the
point. -/
def fixedRepr (d : Dec) : String :=
  let a := d.mant.natAbs
  let k := d.exp
  let frac := if k = 0 then "0" else padZeros (toString (a % 10 ^ k)) k
  (if d.mant < 0 then "-" else "") ++ toString (a / 10 ^ k) ++ "." ++ frac

/-- Scientific-notation rendering of a nonzero decimal, python style
(`1e-05`, `1.5e+20`): mantissa with minimal digits and no trailing `.0`,
exponent always signed and at least two digits. -/
def sciRepr (d : Dec) : String :=
  let a := d.mant.natAbs
  let nd := natDigits a
  let e : Int := (nd : Int) - 1 - (d.exp : Int)
  let mant :=
    if nd = 1 then toString a
    else toString (a / 10 ^ (nd - 1)) ++ "." ++ padZeros (toString (a % 10 ^ (nd - 1))) (nd - 1)
  (if d.mant < 0 then "-" else "") ++ mant ++ "e" ++
    (if e < 0 then "-" else "+") ++ padZeros (toString e.natAbs) 2

/-- Python `str()` of a float value `mant / 10 ^ exp`: fixed notation for
`1e-4 ≤ |x| < 1e16`, scientific notation otherwise (and `0.0` for
zero). -/
def pyFloatRepr (d : Dec) : String :=
  let a := d.mant.natAbs
  if d.mant = 0 then "0.0"
  else if 10 ^ d.exp ≤ a * 10 ^ 4 ∧ a < 10 ^ (16 + d.exp) then fixedRepr d
  else sciRepr d

/-- ISO date rendering `YYYY-MM-DD` (how a date-only `datetime64` cell
stringifies under `astype(str)`). -/
def isoDateRepr (y m d : Nat) : String :=
  padZeros (toString y) 4 ++ "-" ++ padZeros (toString m) 2 ++ "-" ++ padZeros (toString d) 2

/-- `astype(str)` on a single cell: how pandas renders each value as a
string.  Missing floats render as `"nan"`, missing ints as `"<NA>"`,
missing dates as `"NaT"`; an integral numeric cell renders without a
decimal point (int64 cell). -/
def pyStr : Value → String
  | .null => "nan"
  | .naInt => "<NA>"
  | .naFloat => "nan"
  | .naDate => "NaT"
  | .num d => if d.exp = 0 then toString d.mant else pyFloatRepr d
  | .str s => s
  | .date y m d => isoDateRepr y m d

/-! ## Numeric and date parsing (`pd.to_numeric`, `pd.to_datetime`) -/

/-- Split a character list at every occurrence of `ch`. -/
def splitOnChar (ch : Char) : List Char → List (List Char)
  | [] => [[]]
  | x :: t =>
    match splitOnChar ch t with
    | [] => if x = ch then [[], []] else [[x]]
    | g :: gs => if x = ch then [] :: g :: gs else (x :: g) :: gs

/-- Value of a digit string (`some 0` on the empty list; `none` if any
character is not an ASCII digit). -/
def digitsToNat? (cs : List Char) : Option Nat :=
  cs.foldl (fun acc c =>
    acc.bind (fun n => if c.isDigit then some (n * 10 + (c.toNat - 48)) else none))
    (some 0)

/-- Parse an unsigned decimal numeral `d+ | d+.d* | .d+` into an exact
decimal value. -/
def parseDec? (cs : List Char) : Option Dec :=
  match splitOnChar '.' cs with
  | [i] =>
    if i = [] then none else (digitsToNat? i).map (fun n => normDec (n : Int) 0)
  | [i, f] =>
    if i = [] ∧ f = [] then none
    else
      (digitsToNat? i).bind (fun a =>
        (digitsToNat? f).map (fun b =>
          normDec ((a * 10 ^ f.length + b : Nat) : Int) f.length))
  | _ => none

/-- Parse an optionally signed decimal numeral. -/
def parseSignedDec? (cs : List Char) : Option Dec :=
  match cs with
  | '+' :: t => parseDec? t
  | '-' :: t => (parseDec? t).map (fun d => ⟨-d.mant, d.exp⟩)
  | _ => parseDec? cs

/-- Parse an optionally signed (nonempty) integer, for exponents. -/
def parseSignedInt? (cs : List Char) : Option Int :=
  match cs with
  | '+' :: t => if t = [] then none else (digitsToNat? t).map (fun n => (n : Int))
  | '-' :: t => if t = [] then none else (digitsToNat? t).map (fun n => -(n : Int))
  | _ => if cs = [] then none else (digitsToNat? cs).map (fun n => (n : Int))

/-- Parse a string as a number the way python's `float()` (hence
`pd.to_numeric` on a string cell) does: surrounding whitespace allowed,
optional sign, decimal mantissa, optional exponent.  (The `inf`/`nan`
keywords and underscore separators are outside the model's scope.) -/
def parseNumeric? (s : String) : Option Dec :=
  let cs := (stripStr s).toList.map Char.toLower
  match splitOnChar 'e' cs with
  | [mant] => parseSignedDec? mant
  | [mant, ex] =>
    (parseSignedDec? mant).bind (fun d =>
      (parseSignedInt? ex).map (fun e =>
        if 0 ≤ e then normDec (d.mant * (10 : Int) ^ e.toNat) d.exp
        else normDec d.mant (d.exp + e.natAbs)))
  | _ => none

/-- `pd.to_numeric(·, errors="coerce")` applied to one string cell. -/
def toNumericStr (s : String) : Value :=
  match parseNumeric? s with
  | some d => .num d
  | none => .naFloat

/-- `pd.to_numeric(·, errors="coerce")` on a single cell.  Missing values
coerce to `NaN`; numbers pass through; strings are parsed.  (Datetime
cells never reach `to_numeric` in this pipeline and are modelled as
coerced to the missing marker.) -/
def toNumericVal : Value → Value
  | .null | .naInt | .naFloat | .naDate => .naFloat
  | .num q => .num q
  | .str s => toNumericStr s
  | .date _ _ _ => .naFloat

/-- Number of days in a month (proleptic Gregorian). -/
def daysInMonth (y m : Nat) : Nat :=
  if m = 2 then
    if y % 4 = 0 ∧ (y % 100 ≠ 0 ∨ y % 400 = 0) then 29 else 28
  else if m = 4 ∨ m = 6 ∨ m = 9 ∨ m = 11 then 30
  else 31

/-- Parse an ISO `YYYY-MM-DD` date with calendar validity checking (the
format exercised by this pipeline's data; other formats accepted by
`pd.to_datetime` are outside the model's scope and parse as missing). -/
def parseIsoDate? (s : String) : Option (Nat × Nat × Nat) :=
  match splitOnChar '-' (stripStr s).toList with
  | [ys, ms, ds] =>
    if ys = [] ∨ ms = [] ∨ ds = [] then none
    else
      (digitsToNat? ys).bind (fun y =>
        (digitsToNat? ms).bind (fun m =>
          (digitsToNat? ds).bind (fun d =>
            if 1 ≤ m ∧ m ≤ 12 ∧ 1 ≤ d ∧ d ≤ daysInMonth y m then some (y, m, d)
            else none)))
  | _ => none

/-- `pd.to_datetime(·, errors="coerce")` on a single cell.  (Numeric cells,
which pandas would read as epoch offsets, do not occur in the
`last_review` column and are modelled as coerced to `NaT`.) -/
def toDatetimeVal : Value → Value
  | .null | .naInt | .naFloat | .naDate => .naDate
  | .date y m d => .date y m d
  | .num _ => .naDate
  | .str s =>
    match parseIsoDate? s with
    | some (y, m, d) => .date y m d
    | none => .naDate

/-! ## The per-column cleaners -/

/-- The error message of pandas `astype("Int64")` on a float column holding
a non-integral value. -/
def castErrMsg : String := "cannot safely cast non-equivalent float64 to int64"

/-- `astype("Int64")` on one cell of a numeric column: missing becomes
`<NA>`, an integral number is kept, a non-integral number raises. -/
def astypeInt64Val : Value → Except String Value
  | .null | .naInt | .naFloat | .naDate => .ok .naInt
  | .num d => if d.exp = 0 then .ok (.num d) else .error castErrMsg
  | .str _ => .error castErrMsg
  | .date _ _ _ => .error castErrMsg

/-- `astype("Int64")` on a whole column: fails if any cell fails. -/
def astypeInt64Col : List Value → Except String (List Value)
  | [] => .ok []
  | v :: t =>
    match astypeInt64Val v with
    | .error e => .error e
    | .ok w =>
      match astypeInt64Col t with
      | .error e => .error e
      | .ok ws => .ok (w :: ws)

/-- `clean_listing_id`: `pd.to_numeric(col, errors="coerce").astype("Int64")`. -/
def clean_listing_id (col : List Value) : Except String (List Value) :=
  astypeInt64Col (col.map toNumericVal)

/-- `clean_host_id`: identical body to `clean_listing_id`. -/
def clean_host_id (col : List Value) : Except String (List Value) :=
  astypeInt64Col (col.map toNumericVal)

/-- One cell of `col.fillna(placeholder).astype(str).str.strip()`. -/
def cleanTextVal (placeholder : String) (v : Value) : Value :=
  .str (stripStr (pyStr (if v.isna then .str placeholder else v)))

/-- `clean_name`: fill missing with `"Unknown"`, stringify, strip. -/
def clean_name (col : List Value) : List Value :=
  col.map (cleanTextVal "Unknown")

/-- `clean_host_name`: identical body to `clean_name`. -/
def clean_host_name (col : List Value) : List Value :=
  col.map (cleanTextVal "Unknown")

/-- `clean_room_type`: identical body to `clean_name`. -/
def clean_room_type (col : List Value) : List Value :=
  col.map (cleanTextVal "Unknown")

/-- `clean_neighbourhood_group`: identical body to `clean_name`. -/
def clean_neighbourhood_group (col : List Value) : List Value :=
  col.map (cleanTextVal "Unknown")

/-- `clean_neighbourhood`: identical body to `clean_name`. -/
def clean_neighbourhood (col : List Value) : List Value :=
  col.map (cleanTextVal "Unknown")

/-- `clean_license`: fill missing with `"Not available"`, stringify, strip. -/
def clean_license (col : List Value) : List Value :=
  col.map (cleanTextVal "Not available")

/-- `clean_latitude`: `pd.to_numeric(col, errors="coerce")`. -/
def clean_latitude (col : List Value) : List Value :=
  col.map toNumericVal

/-- `clean_longitude`: `pd.to_numeric(col, errors="coerce")`. -/
def clean_longitude (col : List Value) : List Value :=
  col.map toNumericVal

/-- One cell of `clean_price`: stringify, delete `$` and `,`, delete every
character outside `[0-9.\-]`, then `pd.to_numeric(·, errors="coerce")`. -/
def cleanPriceVal (v : Value) : Value :=
  let s1 := (pyStr v).toList.filter (fun c => ¬ (c = '$' ∨ c = ','))
  let s2 := s1.filter (fun c => c.isDigit ∨ c = '.' ∨ c = '-')
  toNumericStr (String.mk s2)

/-- `clean_price`. -/
def clean_price (col : List Value) : List Value :=
  col.map cleanPriceVal

/-- `clean_minimum_nights`: `pd.to_numeric(col, errors="coerce")`. -/
def clean_minimum_nights (col : List Value) : List Value :=
  col.map toNumericVal

/-- `clean_num_reviews`: `pd.to_numeric(col, errors="coerce")`. -/
def clean_num_reviews (col : List Value) : List Value :=
  col.map toNumericVal

/-- `clean_reviews_per_month`: `pd.to_numeric(col, errors="coerce")`. -/
def clean_reviews_per_month (col : List Value) : List Value :=
  col.map toNumericVal

/-- `clean_calculated_host_count`: `pd.to_numeric(col, errors="coerce")`. -/
def clean_calculated_host_count (col : List Value) : List Value :=
  col.map toNumericVal

/-- `clean_availability_365`: `pd.to_numeric(col, errors="coerce")`. -/
def clean_availability_365 (col : List Value) : List Value :=
  col.map toNumericVal

/-- `clean_num_reviews_ltm`: `pd.to_numeric(col, errors="coerce")`. -/
def clean_num_reviews_ltm (col : List Value) : List Value :=
  col.map toNumericVal

/-- `clean_last_review`: `pd.to_datetime(col, errors="coerce")`. -/
def clean_last_review (col : List Value) : List Value :=
  col.map toDatetimeVal

/-! ## Frames, the cleaner registry and the orchestrator -/

/-- A data-frame row: ordered association list from column name to value. -/
abbrev Row := List (String × Value)

/-- A data frame: ordered column names plus rows. -/
structure Frame where
  cols : List String
  rows : List Row
deriving DecidableEq, Repr

/-- The keys (column names) of a row, in order. -/
def keys (r : Row) : List String := r.map Prod.fst

/-- Look up a column's value in a row (`Value.null` when absent; in the
pipeline the looked-up columns are always present). -/
def lookupD : Row → String → Value
  | [], _ => .null
  | (c', v) :: t, c => if c' = c then v else lookupD t c

/-- Overwrite the value at a key (first occurrence), appending the pair at
the end when the key is absent — the behaviour of `df[col] = series` and
of python dict assignment. -/
def setField : Row → String → Value → Row
  | [], c, v => [(c, v)]
  | (c', w) :: t, c, v => if c' = c then (c, v) :: t else (c', w) :: setField t c v

/-- Extract a column from the rows (`df[col]`). -/
def getCol (rows : List Row) (c : String) : List Value :=
  rows.map (fun r => lookupD r c)

/-- Replace a column in the rows (`df[col] = series`). -/
def setCol (rows : List Row) (c : String) (vs : List Value) : List Row :=
  List.zipWith (fun r v => setField r c v) rows vs

/-- Tags for the eighteen cleaning functions of the `cleaners` dict. -/
inductive Cleaner where
  | listingId | nameC | hostId | hostName | neighbourhoodGroup | neighbourhoodC
  | latitude | longitude | roomType | price | minimumNights | numberOfReviews
  | lastReview | reviewsPerMonth | calculatedHostListingsCount | availability365
  | numberOfReviewsLtm | licenseC
deriving DecidableEq, Repr

/-- Dispatch a cleaner tag to its column function (pure cleaners are
wrapped in `.ok`; the two identifier cleaners can raise). -/
def runCleaner : Cleaner → List Value → Except String (List Value)
  | .listingId => clean_listing_id
  | .nameC => fun col => .ok (clean_name col)
  | .hostId => clean_host_id
  | .hostName => fun col => .ok (clean_host_name col)
  | .neighbourhoodGroup => fun col => .ok (clean_neighbourhood_group col)
  | .neighbourhoodC => fun col => .ok (clean_neighbourhood col)
  | .latitude => fun col => .ok (clean_latitude col)
  | .longitude => fun col => .ok (clean_longitude col)
  | .roomType => fun col => .ok (clean_room_type col)
  | .price => fun col => .ok (clean_price col)
  | .minimumNights => fun col => .ok (clean_minimum_nights col)
  | .numberOfReviews => fun col => .ok (clean_num_reviews col)
  | .lastReview => fun col => .ok (clean_last_review col)
  | .reviewsPerMonth => fun col => .ok (clean_reviews_per_month col)
  | .calculatedHostListingsCount => fun col => .ok (clean_calculated_host_count col)
  | .availability365 => fun col => .ok (clean_availability_365 col)
  | .numberOfReviewsLtm => fun col => .ok (clean_num_reviews_ltm col)
  | .licenseC => fun col => .ok (clean_license col)

/-- The `cleaners` dict of `clean_data`, in source (insertion) order. -/
def cleaners : List (String × Cleaner) :=
  [("id", .listingId), ("name", .nameC), ("host_id", .hostId),
   ("host_name", .hostName), ("neighbourhood_group", .neighbourhoodGroup),
   ("neighbourhood", .neighbourhoodC), ("latitude", .latitude),
   ("longitude", .longitude), ("room_type", .roomType), ("price", .price),
   ("minimum_nights", .minimumNights), ("number_of_reviews", .numberOfReviews),
   ("last_review", .lastReview), ("reviews_per_month", .reviewsPerMonth),
   ("calculated_host_listings_count", .calculatedHostListingsCount),
   ("availability_365", .availability365),
   ("number_of_reviews_ltm", .numberOfReviewsLtm), ("license", .licenseC)]

/-- One iteration of the `clean_data` loop: `df[col] = cleaner_fn(df[col])`,
with an exception propagating past the remaining iterations. -/
def stepClean (acc : Except String (List Row)) (p : String × Cleaner) :
    Except String (List Row) :=
  match acc with
  | .error e => .error e
  | .ok rows =>
    match runCleaner p.2 (getCol rows p.1) with
    | .error e => .error e
    | .ok vs => .ok (setCol rows p.1 vs)

/-- Run a sequence of (column, cleaner) pairs left to right. -/
def runSeq (L : List (String × Cleaner)) (acc : Except String (List Row)) :
    Except String (List Row) :=
  L.foldl stepClean acc

/-- `clean_data` on the rows of a frame. -/
def cleanDataRows (rows : List Row) : Except String (List Row) :=
  runSeq cleaners (.ok rows)

/-- Column list after `clean_data`: assigning to an existing column keeps
the column order, assigning to a new one appends it. -/
def colsAfterClean (cs : List String) : List String :=
  cleaners.foldl (fun acc p => if p.1 ∈ acc then acc else acc ++ [p.1]) cs

/-- `clean_data` on a frame. -/
def clean_data (df : Frame) : Except String Frame :=
  Except.map (fun rs => ⟨colsAfterClean df.cols, rs⟩) (cleanDataRows df.rows)

/-! ## Schema validation, row admission, pipeline -/

/-- The `required_columns` list, in source order. -/
def required_columns : List String :=
  ["id", "name", "host_id", "host_name", "neighbourhood_group",
   "neighbourhood", "latitude", "longitude", "room_type", "price",
   "minimum_nights", "number_of_reviews", "last_review",
   "reviews_per_month", "calculated_host_listings_count",
   "availability_365", "number_of_reviews_ltm", "license"]

/-- The required columns absent from a frame, in `required_columns` order. -/
def missingColumns (df : Frame) : List String :=
  required_columns.filter (fun c => ¬ c ∈ df.cols)

/-- `validate_columns`: raise `ValueError` naming all missing required
columns, else return the frame unchanged.  The error payload is the
`missing` list interpolated into the exception message. -/
def validate_columns (df : Frame) : Except (List String) Frame :=
  if missingColumns df = [] then .ok df else .error (missingColumns df)

/-- The admission mask of `reject_bad_rows`: `df["price"].isna()`. -/
def badPrice (r : Row) : Bool := (lookupD r "price").isna

/-- Build a frame from a list of record dicts (`pd.DataFrame(rejects)`):
the column set is the union of the rows' keys in first-appearance order —
in particular the empty record list yields a frame with no columns. -/
def frameOfRecords (rs : List Row) : Frame :=
  ⟨rs.foldl (fun acc r => r.foldl (fun a p => if p.1 ∈ a then a else a ++ [p.1]) acc) [], rs⟩

/-- `reject_bad_rows`: split the frame on the price mask; rejected rows are
copied with `reject_reason = "Invalid price"` added, accepted rows are
kept verbatim (and keep the input's columns). -/
def reject_bad_rows (df : Frame) : Frame × Frame :=
  let rejects := (df.rows.filter badPrice).map
    (fun r => setField r "reject_reason" (.str "Invalid price"))
  (⟨df.cols, df.rows.filter (fun r => !(badPrice r))⟩, frameOfRecords rejects)

/-- Errors of the in-memory pipeline: the schema `ValueError` with its list
of missing columns, or a cleaning `TypeError`. -/
inductive PipeError where
  | schema (missing : List String)
  | typeErr (msg : String)
deriving DecidableEq, Repr

/-- The transformation core of `ingest_listings` (file I/O and reporting are
external): validate, clean, partition. -/
def ingestCore (df : Frame) : Except PipeError (Frame × Frame) :=
  match validate_columns df with
  | .error missing => .error (.schema missing)
  | .ok v =>
    match clean_data v with
    | .error e => .error (.typeErr e)
    | .ok cleaned => .ok (reject_bad_rows cleaned)

/-! ## Basic lemmas: stripping, rows, columns -/

theorem head_dropWhile_false {p : Char → Bool} :
    ∀ {cs : List Char} {a : Char} {t : List Char},
      cs.dropWhile p = a :: t → p a = false := by
  intro cs
  induction cs with
  | nil => intro a t h; simp [List.dropWhile] at h
  | cons c cs' ih =>
    intro a t h
    by_cases hc : p c
    · exact ih (by simpa [List.dropWhile_cons, hc] using h)
    · simp only [List.dropWhile_cons, if_neg hc] at h
      obtain ⟨ha, -⟩ := List.cons_eq_cons.mp h
      simp only [Bool.not_eq_true] at hc
      rw [← ha]
      exact hc

theorem dropWhile_trimChars (cs : List Char) :
    (trimChars cs).dropWhile pySpace = trimChars cs := by
  unfold trimChars
  rcases h : List.rdropWhile pySpace (cs.dropWhile pySpace) with _ | ⟨a, t⟩
  · rfl
  · obtain ⟨u, hu⟩ := (List.rdropWhile_prefix pySpace (cs.dropWhile pySpace))
    rw [h] at hu
    have hu' : cs.dropWhile pySpace = a :: (t ++ u) := by rw [← hu]; simp
    have ha := head_dropWhile_false hu'
    simp [List.dropWhile_cons, ha]

theorem trimChars_idem (cs : List Char) : trimChars (trimChars cs) = trimChars cs := by
  conv_lhs => rw [trimChars, dropWhile_trimChars]
  rw [trimChars, List.rdropWhile_idempotent]

theorem stripStr_idem (s : String) : stripStr (stripStr s) = stripStr s := by
  simp [stripStr, trimChars_idem]

theorem lookupD_setField_self (r : Row) (c : String) (v : Value) :
    lookupD (setField r c v) c = v := by
  induction r with
  | nil => simp [setField, lookupD]
  | cons p t ih =>
    by_cases h : p.1 = c
    · simp [setField, lookupD, h]
    · simp [setField, lookupD, h, ih]

theorem lookupD_setField_ne (r : Row) {c c' : String} (v : Value) (h : c' ≠ c) :
    lookupD (setField r c v) c' = lookupD r c' := by
  induction r with
  | nil => simp [setField, lookupD, Ne.symm h]
  | cons p t ih =>
    by_cases hp : p.1 = c
    · simp [setField, lookupD, hp, Ne.symm h]
    · by_cases hp' : p.1 = c'
      · simp [setField, lookupD, hp, hp', h]
      · simp [setField, lookupD, hp, hp', ih]

theorem mem_keys_setField_self (r : Row) (c : String) (v : Value) :
    c ∈ keys (setField r c v) := by
  induction r with
  | nil => simp [setField, keys]
  | cons p t ih =>
    by_cases h : p.1 = c
    · simp [setField, keys, h]
    · simp only [setField, keys, if_neg h, List.map_cons, List.mem_cons]
      exact Or.inr ih

theorem mem_keys_setField_of_mem {r : Row} {x : String} (c : String) (v : Value)
    (h : x ∈ keys r) : x ∈ keys (setField r c v) := by
  induction r with
  | nil => simp [keys] at h
  | cons p t ih =>
    by_cases hp : p.1 = c
    · simp only [keys, List.map_cons, List.mem_cons] at h
      rcases h with h | h
      · simp [setField, keys, hp, hp ▸ h]
      · simp [setField, keys, hp, h]
    · simp only [keys, List.map_cons, List.mem_cons] at h
      rcases h with h | h
      · simp [setField, keys, hp, h]
      · simp only [setField, keys, if_neg hp, List.map_cons, List.mem_cons]
        exact Or.inr (ih h)

theorem mem_keys_setField {r : Row} {x c : String} {v : Value}
    (h : x ∈ keys (setField r c v)) : x ∈ keys r ∨ x = c := by
  induction r with
  | nil => simpa [setField, keys] using h
  | cons p t ih =>
    by_cases hp : p.1 = c
    · simp only [setField, keys, if_pos hp, List.map_cons, List.mem_cons] at h
      rcases h with h | h
      · exact Or.inr h
      · exact Or.inl (by simp [keys, h])
    · simp only [setField, keys, if_neg hp, List.map_cons, List.mem_cons] at h
      rcases h with h | h
      · exact Or.inl (by simp [keys, h])
      · rcases ih h with h' | h'
        · exact Or.inl (by simp [keys]; exact Or.inr (by simpa [keys] using h'))
        · exact Or.inr h'

theorem setField_lookupD_self {r : Row} {c : String} (h : c ∈ keys r) :
    setField r c (lookupD r c) = r := by
  induction r with
  | nil => simp [keys] at h
  | cons p t ih =>
    obtain ⟨pc, pv⟩ := p
    by_cases hp : pc = c
    · subst hp; simp [setField, lookupD]
    · simp only [keys, List.map_cons, List.mem_cons] at h
      rcases h with h | h
      · exact absurd h.symm hp
      · simp [setField, lookupD, hp, ih (by simpa [keys] using h)]

theorem setField_comm {r : Row} {c₁ c₂ : String} (v₁ v₂ : Value)
    (h₁ : c₁ ∈ keys r) (h₂ : c₂ ∈ keys r) (hne : c₁ ≠ c₂) :
    setField (setField r c₁ v₁) c₂ v₂ = setField (setField r c₂ v₂) c₁ v₁ := by
  induction r with
  | nil => simp [keys] at h₁
  | cons p t ih =>
    by_cases hp₁ : p.1 = c₁
    · have hp₂ : ¬ c₂ = c₁ := Ne.symm hne
      simp [setField, hp₁, Ne.symm hne, hne]
    · by_cases hp₂ : p.1 = c₂
      · simp [setField, hp₁, hp₂, hne, Ne.symm hne]
      · have h₁' : c₁ ∈ keys t := by
          simp only [keys, List.map_cons, List.mem_cons] at h₁
          rcases h₁ with h | h
          · exact absurd h.symm hp₁
          · simpa [keys] using h
        have h₂' : c₂ ∈ keys t := by
          simp only [keys, List.map_cons, List.mem_cons] at h₂
          rcases h₂ with h | h
          · exact absurd h.symm hp₂
          · simpa [keys] using h
        simp [setField, hp₁, hp₂, ih h₁' h₂']

theorem length_getCol (rows : List Row) (c : String) :
    (getCol rows c).length = rows.length := by
  simp [getCol]

theorem length_setCol {rows : List Row} {vs : List Value} (c : String)
    (h : vs.length = rows.length) : (setCol rows c vs).length = rows.length := by
  simp [setCol, List.length_zipWith, h]

theorem getCol_setCol_self {rows : List Row} {vs : List Value} (c : String)
    (h : vs.length = rows.length) : getCol (setCol rows c vs) c = vs := by
  induction rows generalizing vs with
  | nil =>
    have hv : vs = [] := List.length_eq_zero.mp (by simpa using h)
    subst hv; rfl
  | cons r t ih =>
    cases vs with
    | nil => simp at h
    | cons v vt =>
      simp only [getCol, setCol, List.zipWith_cons_cons, List.map_cons]
      rw [lookupD_setField_self]
      have := @ih vt (by simpa using h)
      simp only [getCol, setCol] at this
      simp [this]

theorem getCol_setCol_ne {rows : List Row} {vs : List Value} {c c' : String}
    (h : vs.length = rows.length) (hne : c' ≠ c) :
    getCol (setCol rows c vs) c' = getCol rows c' := by
  induction rows generalizing vs with
  | nil => simp [getCol, setCol]
  | cons r t ih =>
    cases vs with
    | nil => simp at h
    | cons v vt =>
      simp only [getCol, setCol, List.zipWith_cons_cons, List.map_cons]
      rw [lookupD_setField_ne _ _ hne]
      have := @ih vt (by simpa using h)
      simp only [getCol, setCol] at this
      simp [this]

theorem mem_setCol {rows : List Row} {vs : List Value} {c : String} {r : Row}
    (h : r ∈ setCol rows c vs) : ∃ r₀ ∈ rows, ∃ v, r = setField r₀ c v := by
  induction rows generalizing vs with
  | nil => simp [setCol] at h
  | cons r₀ t ih =>
    cases vs with
    | nil => simp [setCol] at h
    | cons v vt =>
      simp only [setCol, List.zipWith_cons_cons, List.mem_cons] at h
      rcases h with h | h
      · exact ⟨r₀, by simp, v, h⟩
      · obtain ⟨r₁, hr₁, w, hw⟩ := ih h
        exact ⟨r₁, by simp [hr₁], w, hw⟩

theorem setCol_getCol_self {rows : List Row} {c : String}
    (h : ∀ r ∈ rows, c ∈ keys r) : setCol rows c (getCol rows c) = rows := by
  induction rows with
  | nil => rfl
  | cons r t ih =>
    simp only [setCol, getCol, List.map_cons, List.zipWith_cons_cons]
    rw [setField_lookupD_self (h r (by simp))]
    have := ih (fun r hr => h r (by simp [hr]))
    simp only [setCol, getCol] at this
    simp [this]

theorem setCol_comm {rows : List Row} {c₁ c₂ : String} {vs₁ vs₂ : List Value}
    (hne : c₁ ≠ c₂) (h₁ : ∀ r ∈ rows, c₁ ∈ keys r) (h₂ : ∀ r ∈ rows, c₂ ∈ keys r)
    (hl₁ : vs₁.length = rows.length) (hl₂ : vs₂.length = rows.length) :
    setCol (setCol rows c₁ vs₁) c₂ vs₂ = setCol (setCol rows c₂ vs₂) c₁ vs₁ := by
  induction rows generalizing vs₁ vs₂ with
  | nil => simp [setCol]
  | cons r t ih =>
    cases vs₁ with
    | nil => simp at hl₁
    | cons v₁ vt₁ =>
      cases vs₂ with
      | nil => simp at hl₂
      | cons v₂ vt₂ =>
        simp only [setCol, List.zipWith_cons_cons]
        rw [setField_comm v₁ v₂ (h₁ r (by simp)) (h₂ r (by simp)) hne]
        have := ih (fun r hr => h₁ r (by simp [hr])) (fun r hr => h₂ r (by simp [hr]))
          (by simpa using hl₁) (by simpa using hl₂)
        simp only [setCol] at this
        simp [this]

theorem getD_setCol {rows : List Row} {vs : List Value} {c : String}
    (h : vs.length = rows.length) (i : Nat) :
    (setCol rows c vs).getD i [] =
      if i < rows.length then setField (rows.getD i []) c (vs.getD i .null)
      else [] := by
  induction rows generalizing vs i with
  | nil => simp [setCol]
  | cons r t ih =>
    cases vs with
    | nil => simp at h
    | cons v vt =>
      cases i with
      | zero => simp [setCol]
      | succ n =>
        simp only [setCol, List.zipWith_cons_cons, List.getD_cons_succ]
        have := @ih vt (by simpa using h) n
        simp only [setCol] at this
        rw [this]
        simp [Nat.succ_lt_succ_iff]

/-! ## Cleaner-level lemmas -/

theorem map_id_on {α : Type} {f : α → α} :
    ∀ {l : List α}, (∀ x ∈ l, f x = x) → l.map f = l := by
  intro l
  induction l with
  | nil => intro _; rfl
  | cons a t ih =>
    intro h
    simp only [List.map_cons]
    rw [h a (by simp), ih (fun x hx => h x (by simp [hx]))]

theorem astypeInt64Col_length :
    ∀ {vs ws : List Value}, astypeInt64Col vs = .ok ws → ws.length = vs.length := by
  intro vs
  induction vs with
  | nil => intro ws h; simp only [astypeInt64Col] at h; cases h; rfl
  | cons v t ih =>
    intro ws h
    simp only [astypeInt64Col] at h
    cases hv : astypeInt64Val v with
    | error e => rw [hv] at h; cases h
    | ok w =>
      rw [hv] at h
      cases ht : astypeInt64Col t with
      | error e => rw [ht] at h; cases h
      | ok wt =>
        rw [ht] at h
        cases h
        simp [ih ht]

theorem runCleaner_length {k : Cleaner} {vs ws : List Value}
    (h : runCleaner k vs = .ok ws) : ws.length = vs.length := by
  cases k <;>
    simp only [runCleaner, clean_listing_id, clean_host_id, clean_name,
      clean_host_name, clean_room_type, clean_neighbourhood_group,
      clean_neighbourhood, clean_license, clean_latitude, clean_longitude,
      clean_price, clean_minimum_nights, clean_num_reviews,
      clean_reviews_per_month, clean_calculated_host_count,
      clean_availability_365, clean_num_reviews_ltm, clean_last_review,
      Except.ok.injEq] at h
  case listingId => simpa using astypeInt64Col_length h
  case hostId => simpa using astypeInt64Col_length h
  all_goals simp [← h]

theorem astypeInt64Val_error {v : Value} {e : String}
    (h : astypeInt64Val v = .error e) : e = castErrMsg := by
  cases v <;> simp only [astypeInt64Val] at h
  case num d =>
    by_cases hq : d.exp = 0
    · rw [if_pos hq] at h; cases h
    · rw [if_neg hq] at h; injection h with h2; exact h2.symm
  case str s => injection h with h2; exact h2.symm
  case date y m d => injection h with h2; exact h2.symm
  all_goals cases h

theorem astypeInt64Col_error :
    ∀ {vs : List Value} {e : String}, astypeInt64Col vs = .error e → e = castErrMsg := by
  intro vs
  induction vs with
  | nil => intro e h; simp only [astypeInt64Col] at h; cases h
  | cons v t ih =>
    intro e h
    simp only [astypeInt64Col] at h
    cases hv : astypeInt64Val v with
    | error e' =>
      rw [hv] at h; cases h; exact astypeInt64Val_error hv
    | ok w =>
      rw [hv] at h
      cases ht : astypeInt64Col t with
      | error e' => rw [ht] at h; cases h; exact ih ht
      | ok wt => rw [ht] at h; cases h

theorem runCleaner_error {k : Cleaner} {vs : List Value} {e : String}
    (h : runCleaner k vs = .error e) : e = castErrMsg := by
  cases k <;> simp only [runCleaner, clean_listing_id, clean_host_id] at h <;>
    first
      | exact astypeInt64Col_error h
      | cases h

theorem toNumericVal_shape (v : Value) :
    toNumericVal v = .naFloat ∨ ∃ q, toNumericVal v = .num q := by
  cases v <;> simp [toNumericVal]
  case str s =>
    unfold toNumericStr
    cases parseNumeric? s <;> simp

theorem toNumericStr_shape (s : String) :
    toNumericStr s = .naFloat ∨ ∃ q, toNumericStr s = .num q := by
  unfold toNumericStr
  cases parseNumeric? s <;> simp

theorem cleanPriceVal_eq_toNumericStr (v : Value) :
    cleanPriceVal v = toNumericStr (String.mk
      (((pyStr v).toList.filter (fun c => ¬ (c = '$' ∨ c = ','))).filter
        (fun c => c.isDigit ∨ c = '.' ∨ c = '-'))) := rfl

theorem cleanPriceVal_shape (v : Value) :
    cleanPriceVal v = .naFloat ∨ ∃ q, cleanPriceVal v = .num q := by
  rw [cleanPriceVal_eq_toNumericStr]
  exact toNumericStr_shape _

theorem cleanPriceVal_isna_iff (v : Value) :
    (cleanPriceVal v).isna = true ↔ cleanPriceVal v = .naFloat := by
  rcases cleanPriceVal_shape v with h | ⟨q, h⟩ <;> rw [h] <;> simp [Value.isna]

theorem toNumericVal_idem (v : Value) :
    toNumericVal (toNumericVal v) = toNumericVal v := by
  rcases toNumericVal_shape v with h | ⟨q, h⟩ <;> rw [h] <;> rfl

theorem toDatetimeVal_shape (v : Value) :
    toDatetimeVal v = .naDate ∨ ∃ y m d, toDatetimeVal v = .date y m d := by
  cases v <;> simp [toDatetimeVal]
  case str s =>
    rcases parseIsoDate? s with - | ⟨y, m, d⟩
    · simp
    · exact Or.inr ⟨y, m, d, rfl⟩

theorem toDatetimeVal_idem (v : Value) :
    toDatetimeVal (toDatetimeVal v) = toDatetimeVal v := by
  rcases toDatetimeVal_shape v with h | ⟨y, m, d, h⟩ <;> rw [h] <;> rfl

theorem cleanTextVal_idem (ph : String) (v : Value) :
    cleanTextVal ph (cleanTextVal ph v) = cleanTextVal ph v := by
  simp [cleanTextVal, Value.isna, pyStr, stripStr_idem]

theorem astypeInt64Val_out_idem {v w : Value} (h : astypeInt64Val v = .ok w) :
    astypeInt64Val (toNumericVal w) = .ok w := by
  cases v <;> simp only [astypeInt64Val] at h
  case null => cases h; rfl
  case naInt => cases h; rfl
  case naFloat => cases h; rfl
  case naDate => cases h; rfl
  case num d =>
    by_cases hq : d.exp = 0
    · rw [if_pos hq] at h; cases h
      simp [toNumericVal, astypeInt64Val, hq]
    · rw [if_neg hq] at h; cases h
  case str s => cases h
  case date y m d => cases h

theorem astypeInt64Col_out_idem :
    ∀ {us ws : List Value}, astypeInt64Col us = .ok ws →
      astypeInt64Col (ws.map toNumericVal) = .ok ws := by
  intro us
  induction us with
  | nil => intro ws h; simp only [astypeInt64Col] at h; cases h; rfl
  | cons u t ih =>
    intro ws h
    simp only [astypeInt64Col] at h
    cases hu : astypeInt64Val u with
    | error e => rw [hu] at h; cases h
    | ok w =>
      rw [hu] at h
      cases ht : astypeInt64Col t with
      | error e => rw [ht] at h; cases h
      | ok wt =>
        rw [ht] at h
        cases h
        simp only [List.map_cons, astypeInt64Col]
        rw [astypeInt64Val_out_idem hu, ih ht]

theorem clean_listing_id_out_idem {vs ws : List Value}
    (h : clean_listing_id vs = .ok ws) : clean_listing_id ws = .ok ws :=
  astypeInt64Col_out_idem h

theorem runCleaner_out_idem {k : Cleaner} {vs ws : List Value}
    (h : runCleaner k vs = .ok ws)
    (hp : k = .price → ∀ v ∈ ws, cleanPriceVal v = v) :
    runCleaner k ws = .ok ws := by
  cases k
  case listingId => exact clean_listing_id_out_idem h
  case hostId => exact @clean_listing_id_out_idem vs ws h
  case price =>
    simp only [runCleaner, clean_price, Except.ok.injEq]
    exact map_id_on (hp rfl)
  all_goals
    simp only [runCleaner, clean_name, clean_host_name, clean_room_type,
      clean_neighbourhood_group, clean_neighbourhood, clean_license,
      clean_latitude, clean_longitude, clean_minimum_nights,
      clean_num_reviews, clean_reviews_per_month,
      clean_calculated_host_count, clean_availability_365,
      clean_num_reviews_ltm, clean_last_review, Except.ok.injEq] at h ⊢
  all_goals
    subst h
  all_goals
    refine map_id_on ?_
  all_goals
    intro x hx
  all_goals
    obtain ⟨y, -, rfl⟩ := List.mem_map.mp hx
  · exact cleanTextVal_idem _ _
  · exact cleanTextVal_idem _ _
  · exact cleanTextVal_idem _ _
  · exact cleanTextVal_idem _ _
  · exact toNumericVal_idem _
  · exact toNumericVal_idem _
  · exact cleanTextVal_idem _ _
  · exact toNumericVal_idem _
  · exact toNumericVal_idem _
  · exact toDatetimeVal_idem _
  · exact toNumericVal_idem _
  · exact toNumericVal_idem _
  · exact toNumericVal_idem _
  · exact toNumericVal_idem _
  · exact cleanTextVal_idem _ _

/-! ## Structure of the orchestrator fold -/

theorem runSeq_error (L : List (String × Cleaner)) (e : String) :
    runSeq L (.error e) = .error e := by
  induction L with
  | nil => rfl
  | cons p t ih => simpa [runSeq, stepClean] using ih

theorem runSeq_cons (p : String × Cleaner) (L : List (String × Cleaner))
    (acc : Except String (List Row)) :
    runSeq (p :: L) acc = runSeq L (stepClean acc p) := by
  simp [runSeq]

/-- Structure theorem for a run of distinct-column cleaning steps: lengths
are preserved, non-listed columns are untouched value-by-value, each listed
column of the output is exactly its cleaner's output on the corresponding
input column, listed columns are present in every output row, and row keys
are preserved upward and (outside the listed names) downward. -/
theorem runSeq_ok_spec :
    ∀ (L : List (String × Cleaner)), (L.map Prod.fst).Nodup →
      ∀ rows rows₁ : List Row, runSeq L (.ok rows) = .ok rows₁ →
        rows₁.length = rows.length
        ∧ (∀ c, c ∉ L.map Prod.fst → getCol rows₁ c = getCol rows c)
        ∧ (∀ i c, c ∉ L.map Prod.fst →
            lookupD (rows₁.getD i []) c = lookupD (rows.getD i []) c)
        ∧ (∀ p ∈ L, runCleaner p.2 (getCol rows p.1) = .ok (getCol rows₁ p.1))
        ∧ (∀ p ∈ L, ∀ r ∈ rows₁, p.1 ∈ keys r)
        ∧ (∀ x, (∀ r ∈ rows, x ∈ keys r) → ∀ r ∈ rows₁, x ∈ keys r)
        ∧ (∀ x, x ∉ L.map Prod.fst → (∀ r ∈ rows, x ∉ keys r) →
            ∀ r ∈ rows₁, x ∉ keys r) := by
  intro L
  induction L with
  | nil =>
    intro _ rows rows₁ h
    have : rows = rows₁ := by simpa [runSeq] using h
    subst this
    refine ⟨rfl, fun _ _ => rfl, fun _ _ _ => rfl, by simp, by simp, ?_, ?_⟩
    · exact fun x hx r hr => hx r hr
    · exact fun x _ hx r hr => hx r hr
  | cons p L' ih =>
    intro hnd rows rows₁ h
    simp only [List.map_cons, List.nodup_cons] at hnd
    obtain ⟨hc, hnd'⟩ := hnd
    rw [runSeq_cons] at h
    cases hrc : runCleaner p.2 (getCol rows p.1) with
    | error e =>
      rw [show stepClean (.ok rows) p = .error e by simp [stepClean, hrc],
        runSeq_error] at h
      cases h
    | ok vs =>
      have hlvs : vs.length = rows.length := by
        simpa [length_getCol] using runCleaner_length hrc
      rw [show stepClean (.ok rows) p = .ok (setCol rows p.1 vs) by
        simp [stepClean, hrc]] at h
      obtain ⟨ha, hb, he, hrun, hpres, hmono, hnotin⟩ := ih hnd' _ _ h
      have hlen' : (setCol rows p.1 vs).length = rows.length := length_setCol _ hlvs
      refine ⟨ha.trans hlen', ?_, ?_, ?_, ?_, ?_, ?_⟩
      · intro c hcnot
        simp only [List.map_cons, List.mem_cons] at hcnot
        push_neg at hcnot
        rw [hb c hcnot.2, getCol_setCol_ne hlvs hcnot.1]
      · intro i c hcnot
        simp only [List.map_cons, List.mem_cons] at hcnot
        push_neg at hcnot
        rw [he i c hcnot.2, getD_setCol hlvs i]
        by_cases hi : i < rows.length
        · rw [if_pos hi, lookupD_setField_ne _ _ hcnot.1]
        · rw [if_neg hi]
          rw [List.getD_eq_default _ _ (Nat.le_of_not_lt hi)]
      · intro q hq
        rcases List.mem_cons.mp hq with rfl | hq'
        · rw [hrc, hb q.1 hc, getCol_setCol_self _ hlvs]
        · have hne : q.1 ≠ p.1 := by
            intro hEq
            exact hc (hEq ▸ List.mem_map_of_mem Prod.fst hq')
          have := hrun q hq'
          rwa [getCol_setCol_ne hlvs hne] at this
      · intro q hq
        rcases List.mem_cons.mp hq with rfl | hq'
        · refine hmono q.1 ?_
          intro r hr
          obtain ⟨r₀, -, v, rfl⟩ := mem_setCol hr
          exact mem_keys_setField_self r₀ q.1 v
        · exact hpres q hq'
      · intro x hx
        refine hmono x ?_
        intro r hr
        obtain ⟨r₀, hr₀, v, rfl⟩ := mem_setCol hr
        exact mem_keys_setField_of_mem _ _ (hx r₀ hr₀)
      · intro x hxnot hx
        simp only [List.map_cons, List.mem_cons] at hxnot
        push_neg at hxnot
        refine hnotin x hxnot.2 ?_
        intro r hr hmem
        obtain ⟨r₀, hr₀, v, rfl⟩ := mem_setCol hr
        rcases mem_keys_setField hmem with hmem' | hmem'
        · exact hx r₀ hr₀ hmem'
        · exact hxnot.1 hmem'

/-- If every listed cleaner maps the (present) listed column to itself, the
whole run is the identity. -/
theorem runSeq_fixpoint :
    ∀ (L : List (String × Cleaner)) (rows : List Row),
      (∀ p ∈ L, runCleaner p.2 (getCol rows p.1) = .ok (getCol rows p.1)) →
      (∀ p ∈ L, ∀ r ∈ rows, p.1 ∈ keys r) →
      runSeq L (.ok rows) = .ok rows := by
  intro L
  induction L with
  | nil => intro rows _ _; rfl
  | cons p L' ih =>
    intro rows hfix hpres
    rw [runSeq_cons,
      show stepClean (.ok rows) p = .ok (setCol rows p.1 (getCol rows p.1)) by
        simp [stepClean, hfix p (by simp)],
      setCol_getCol_self (hpres p (by simp))]
    exact ih rows (fun q hq => hfix q (by simp [hq])) (fun q hq => hpres q (by simp [hq]))

/-! ## Order independence of the cleaners -/

/-- Rows in which every column listed in `cleaners` is present (the state
of affairs in a validated batch). -/
abbrev GoodRows (rows : List Row) : Prop :=
  ∀ r ∈ rows, ∀ p ∈ cleaners, p.1 ∈ keys r

theorem cleaners_name_inj :
    ∀ p ∈ cleaners, ∀ q ∈ cleaners, p.1 = q.1 → p = q := by decide

theorem goodRows_setCol {rows : List Row} (c : String) (vs : List Value)
    (hg : GoodRows rows) : GoodRows (setCol rows c vs) := by
  intro r hr q hq
  obtain ⟨r₀, hr₀, v, rfl⟩ := mem_setCol hr
  exact mem_keys_setField_of_mem _ _ (hg r₀ hr₀ q hq)

theorem stepClean_comm {x y : String × Cleaner} (hx : x ∈ cleaners)
    (hy : y ∈ cleaners) (rows : List Row) (hg : GoodRows rows) :
    stepClean (stepClean (.ok rows) x) y = stepClean (stepClean (.ok rows) y) x := by
  by_cases hxy : x = y
  · rw [hxy]
  · have hne : x.1 ≠ y.1 := fun hEq => hxy (cleaners_name_inj x hx y hy hEq)
    cases hrx : runCleaner x.2 (getCol rows x.1) with
    | error e₁ =>
      cases hry : runCleaner y.2 (getCol rows y.1) with
      | error e₂ =>
        rw [runCleaner_error hrx] at hrx
        rw [runCleaner_error hry] at hry
        simp [stepClean, hrx, hry]
      | ok vs₂ =>
        have hl₂ : vs₂.length = rows.length := by
          simpa [length_getCol] using runCleaner_length hry
        have hrx' : runCleaner x.2 (getCol (setCol rows y.1 vs₂) x.1) = .error e₁ := by
          rwa [getCol_setCol_ne hl₂ hne]
        simp [stepClean, hrx, hry, hrx']
    | ok vs₁ =>
      have hl₁ : vs₁.length = rows.length := by
        simpa [length_getCol] using runCleaner_length hrx
      cases hry : runCleaner y.2 (getCol rows y.1) with
      | error e₂ =>
        have hry' : runCleaner y.2 (getCol (setCol rows x.1 vs₁) y.1) = .error e₂ := by
          rwa [getCol_setCol_ne hl₁ (Ne.symm hne)]
        simp [stepClean, hrx, hry, hry']
      | ok vs₂ =>
        have hl₂ : vs₂.length = rows.length := by
          simpa [length_getCol] using runCleaner_length hry
        have hry' : runCleaner y.2 (getCol (setCol rows x.1 vs₁) y.1) = .ok vs₂ := by
          rwa [getCol_setCol_ne hl₁ (Ne.symm hne)]
        have hrx' : runCleaner x.2 (getCol (setCol rows y.1 vs₂) x.1) = .ok vs₁ := by
          rwa [getCol_setCol_ne hl₂ hne]
        have h₁ : ∀ r ∈ rows, x.1 ∈ keys r := fun r hr => hg r hr x hx
        have h₂ : ∀ r ∈ rows, y.1 ∈ keys r := fun r hr => hg r hr y hy
        simp only [stepClean, hrx, hry, hry', hrx']
        rw [setCol_comm hne h₁ h₂ hl₁ hl₂]

/-- `GoodRows` seen through the `Except` wrapper. -/
def GoodAcc (acc : Except String (List Row)) : Prop :=
  ∀ rows, acc = .ok rows → GoodRows rows

theorem goodAcc_step {acc : Except String (List Row)} (p : String × Cleaner)
    (hg : GoodAcc acc) : GoodAcc (stepClean acc p) := by
  intro rows h
  cases acc with
  | error e => simp [stepClean] at h
  | ok rows₀ =>
    cases hrc : runCleaner p.2 (getCol rows₀ p.1) with
    | error e => simp [stepClean, hrc] at h
    | ok vs =>
      simp only [stepClean, hrc] at h
      cases h
      exact goodRows_setCol _ _ (hg rows₀ rfl)

theorem runSeq_perm_congr :
    ∀ {L₁ L₂ : List (String × Cleaner)}, L₁.Perm L₂ →
      (∀ x ∈ L₁, x ∈ cleaners) →
      ∀ acc : Except String (List Row), GoodAcc acc →
        runSeq L₁ acc = runSeq L₂ acc := by
  intro L₁ L₂ hperm
  induction hperm with
  | nil => intro _ _ _; rfl
  | cons z hperm' ih =>
    intro hmem acc hacc
    rw [runSeq_cons, runSeq_cons]
    exact ih (fun x hx => hmem x (by simp [hx])) _ (goodAcc_step z hacc)
  | swap z₁ z₂ l =>
    intro hmem acc hacc
    rw [runSeq_cons, runSeq_cons, runSeq_cons, runSeq_cons]
    cases acc with
    | error e => simp [stepClean]
    | ok rows =>
      rw [stepClean_comm (hmem z₂ (by simp)) (hmem z₁ (by simp)) rows (hacc rows rfl)]
  | trans hperm₁ hperm₂ ih₁ ih₂ =>
    intro hmem acc hacc
    rw [ih₁ hmem acc hacc]
    exact ih₂ (fun x hx => hmem x ((hperm₁.mem_iff).mpr hx)) acc hacc

/-! ## Claim theorems -/

/-- C6: the Schema Validator fails if and only if the set of required
column names absent from the batch's column set is non-empty; on failure
its error names every missing required column (and nothing else); when no
column is missing it returns the batch unchanged; and on failure the
pipeline aborts with the schema error, so no normalization executes. -/
theorem validate_columns_spec (df : Frame) :
    (validate_columns df = .ok df ↔ missingColumns df = [])
    ∧ (missingColumns df ≠ [] → validate_columns df = .error (missingColumns df))
    ∧ (∀ c, c ∈ missingColumns df ↔ c ∈ required_columns ∧ c ∉ df.cols)
    ∧ (missingColumns df ≠ [] → ingestCore df = .error (.schema (missingColumns df))) := by
  refine ⟨⟨fun h => ?_, fun h => ?_⟩, fun h => ?_, fun c => ?_, fun h => ?_⟩
  · by_contra hne
    rw [validate_columns, if_neg hne] at h
    cases h
  · rw [validate_columns, if_pos h]
  · rw [validate_columns, if_neg h]
  · simp [missingColumns, List.mem_filter]
  · rw [ingestCore, validate_columns, if_neg h]

/-- C6 witness: a frame exposing only `id` fails validation and the
pipeline stops with the schema error. -/
theorem validate_columns_spec_witness :
    ingestCore ⟨["id"], []⟩ = .error (.schema (missingColumns ⟨["id"], []⟩)) :=
  (validate_columns_spec ⟨["id"], []⟩).2.2.2 (by decide)

/-- C2: the two outputs of the Row Admission Filter partition the input:
row counts add up to the input's, the accepted rows together with the
(pre-augmentation) rejected rows are a permutation of the input rows, the
rejected batch is exactly the augmented image of the bad-price rows, and
no row appears in both outputs. -/
theorem reject_bad_rows_partition (df : Frame) :
    (reject_bad_rows df).1.rows.length + (reject_bad_rows df).2.rows.length
        = df.rows.length
    ∧ List.Perm ((reject_bad_rows df).1.rows ++ df.rows.filter badPrice) df.rows
    ∧ (reject_bad_rows df).2.rows = (df.rows.filter badPrice).map
        (fun r => setField r "reject_reason" (.str "Invalid price"))
    ∧ (∀ r ∈ (reject_bad_rows df).1.rows, r ∉ (reject_bad_rows df).2.rows) := by
  have hacc : (reject_bad_rows df).1.rows
      = df.rows.filter (fun r => !(badPrice r)) := rfl
  have hrej : (reject_bad_rows df).2.rows = (df.rows.filter badPrice).map
      (fun r => setField r "reject_reason" (.str "Invalid price")) := rfl
  have hlen := (List.filter_append_perm badPrice df.rows).length_eq
  rw [List.length_append] at hlen
  refine ⟨?_, ?_, hrej, ?_⟩
  · rw [hacc, hrej, List.length_map]
    omega
  · rw [hacc]
    exact List.perm_append_comm.trans (List.filter_append_perm badPrice df.rows)
  · intro r hr hr'
    rw [hacc] at hr
    rw [hrej] at hr'
    obtain ⟨-, hpr⟩ := List.mem_filter.mp hr
    obtain ⟨r₀, hr₀, heq⟩ := List.mem_map.mp hr'
    obtain ⟨-, hpr₀⟩ := List.mem_filter.mp hr₀
    have : badPrice r = badPrice r₀ := by
      rw [← heq]
      unfold badPrice
      rw [lookupD_setField_ne _ _ (by decide : ("price" : String) ≠ "reject_reason")]
    rw [this, hpr₀] at hpr
    cases hpr

/-- C2 witness: in a two-row frame with one missing price, the accepted
row is not among the rejected rows. -/
theorem reject_bad_rows_partition_witness :
    [("id", Value.num ⟨1, 0⟩), ("price", Value.num ⟨100, 0⟩)] ∉
      (reject_bad_rows ⟨["id", "price"],
        [[("id", Value.num ⟨1, 0⟩), ("price", Value.num ⟨100, 0⟩)],
         [("id", Value.num ⟨2, 0⟩), ("price", Value.naFloat)]]⟩).2.rows :=
  (reject_bad_rows_partition _).2.2.2 _ (by decide)

/-- C10: when no row of the input has a missing price, the rejected batch
is the completely empty frame — no rows and, because `pd.DataFrame` of an
empty record list has no columns, no columns either (in particular no
`reject_reason` column and none of the input's columns) — while the
accepted batch equals the input frame exactly. -/
theorem reject_bad_rows_no_rejects (df : Frame)
    (h : ∀ r ∈ df.rows, badPrice r = false) :
    (reject_bad_rows df).2 = ⟨[], []⟩ ∧ (reject_bad_rows df).1 = df := by
  have hfil : df.rows.filter badPrice = [] := by
    rw [List.filter_eq_nil_iff]
    intro r hr
    simp [h r hr]
  constructor
  · show frameOfRecords ((df.rows.filter badPrice).map _) = (⟨[], []⟩ : Frame)
    rw [hfil]
    rfl
  · show Frame.mk df.cols (df.rows.filter (fun r => !(badPrice r))) = df
    have : df.rows.filter (fun r => !(badPrice r)) = df.rows := by
      rw [List.filter_eq_self]
      intro r hr
      simp [h r hr]
    rw [this]

/-- C10 witness: a frame whose single row has a present price yields an
empty, column-free rejected frame and an unchanged accepted frame. -/
theorem reject_bad_rows_no_rejects_witness :
    (reject_bad_rows ⟨["id", "price"],
        [[("id", Value.num ⟨1, 0⟩), ("price", Value.num ⟨100, 0⟩)]]⟩).2
      = (⟨[], []⟩ : Frame)
    ∧ (reject_bad_rows ⟨["id", "price"],
        [[("id", Value.num ⟨1, 0⟩), ("price", Value.num ⟨100, 0⟩)]]⟩).1
      = ⟨["id", "price"],
        [[("id", Value.num ⟨1, 0⟩), ("price", Value.num ⟨100, 0⟩)]]⟩ :=
  reject_bad_rows_no_rejects _ (by decide)

/-- C3 (code bug): the identifier normalizers are not total — on the value
`"10.5"` the column is coerced by `pd.to_numeric` to the non-integral
float `10.5`, and `astype("Int64")` then raises `TypeError: cannot safely
cast non-equivalent float64 to int64` instead of producing the missing
marker, contradicting both the spec's totality requirement and the
function's own docstring ("non-numeric or invalid values are coerced into
`<NA>`"). -/
theorem clean_listing_id_raises :
    clean_listing_id [Value.str "10.5"] = .error castErrMsg
    ∧ clean_host_id [Value.str "10.5"] = .error castErrMsg :=
  ⟨rfl, rfl⟩

/-- Modelled from the spec: the currency rule as worded in the policy table
— "strip currency symbols and thousands separators, then strip every
remaining character that is not a digit, decimal point, or leading minus
sign; parse the residue as floating point".  A minus sign is kept only in
leading position; every other minus is stripped. -/
def specCleanPrice (v : Value) : Value :=
  let s1 := (pyStr v).toList.filter (fun c => ¬ (c = '$' ∨ c = ','))
  let s2 :=
    match s1 with
    | '-' :: t => '-' :: t.filter (fun c => c.isDigit ∨ c = '.')
    | _ => s1.filter (fun c => c.isDigit ∨ c = '.')
  toNumericStr (String.mk s2)

/-- C4 counterexample: the code keeps *every* minus sign (regex class
`[^0-9.\-]`), not only a leading one.  On `"100-"` the code's residue is
`"100-"`, which is unparseable, so `clean_price` yields the missing-float
marker, while the claim's procedure strips the trailing minus and yields
`100.0`. -/
theorem clean_price_spec_counterexample :
    cleanPriceVal (.str "100-") = .naFloat
    ∧ specCleanPrice (.str "100-") = .num ⟨100, 0⟩
    ∧ cleanPriceVal (.str "100-") ≠ specCleanPrice (.str "100-") :=
  ⟨rfl, rfl, by decide⟩

/-- C4 amended: `clean_price` strips currency symbols and thousands
separators and then every remaining character that is not a digit, a
decimal point, or a minus sign *in any position* — equivalently it keeps
exactly the characters in `[0-9.\-]` — and parses the residue, yielding
the missing-float marker when the residue is unparseable.  In particular
`"$1,200.50"` parses to `1200.50`, `"abc"` yields the missing marker, and
a non-leading minus as in `"100-"` makes the residue unparseable. -/
theorem clean_price_spec_amended :
    (∀ s : String, cleanPriceVal (.str s) = toNumericStr
      (String.mk (s.toList.filter (fun c => c.isDigit ∨ c = '.' ∨ c = '-'))))
    ∧ cleanPriceVal (.str "$1,200.50") = .num ⟨12005, 1⟩
    ∧ cleanPriceVal (.str "abc") = .naFloat
    ∧ cleanPriceVal (.str "100-") = .naFloat := by
  refine ⟨fun s => ?_, rfl, rfl, rfl⟩
  rw [cleanPriceVal_eq_toNumericStr]
  apply congrArg toNumericStr
  apply congrArg String.mk
  rw [show pyStr (.str s) = s from rfl, List.filter_filter]
  refine List.filter_congr ?_
  intro c hc
  show (decide (c.isDigit = true ∨ c = '.' ∨ c = '-')
      && decide (¬ (c = '$' ∨ c = ','))) = decide (c.isDigit = true ∨ c = '.' ∨ c = '-')
  by_cases hk : (c.isDigit = true ∨ c = '.' ∨ c = '-')
  · have hnd : ¬ (c = '$' ∨ c = ',') := by
      rintro (rfl | rfl) <;> rcases hk with hk | hk | hk <;> simp_all
    simp [hk, hnd]
  · simp [hk]

/-- C5 counterexample: the free-text and license normalizers substitute
the placeholder only for missing values (`fillna`), not for empty
strings: the empty string is kept as the empty string. -/
theorem clean_text_empty_counterexample :
    clean_name [.str ""] = [.str ""]
    ∧ (Value.str "" ≠ .str "Unknown")
    ∧ clean_license [.str ""] = [.str ""]
    ∧ (Value.str "" ≠ .str "Not available") :=
  ⟨rfl, by decide, rfl, by decide⟩

/-- C5 amended: every free-text normalizer (name, host name, room type,
neighbourhood group, neighbourhood) is the same transformation: missing
input becomes the literal `"Unknown"`, string input is trimmed of
surrounding whitespace (so empty input stays the empty string, it is not
substituted); the license normalizer is identical except for the distinct
placeholder `"Not available"`. -/
theorem clean_text_spec_amended :
    (∀ col, clean_host_name col = clean_name col)
    ∧ (∀ col, clean_room_type col = clean_name col)
    ∧ (∀ col, clean_neighbourhood_group col = clean_name col)
    ∧ (∀ col, clean_neighbourhood col = clean_name col)
    ∧ cleanTextVal "Unknown" .null = .str "Unknown"
    ∧ cleanTextVal "Unknown" .naFloat = .str "Unknown"
    ∧ (∀ s, cleanTextVal "Unknown" (.str s) = .str (stripStr s))
    ∧ cleanTextVal "Not available" .null = .str "Not available"
    ∧ cleanTextVal "Not available" .naFloat = .str "Not available"
    ∧ (∀ s, cleanTextVal "Not available" (.str s) = .str (stripStr s)) := by
  refine ⟨fun _ => rfl, fun _ => rfl, fun _ => rfl, fun _ => rfl,
    rfl, rfl, fun s => ?_, rfl, rfl, fun s => ?_⟩ <;>
    simp [cleanTextVal, Value.isna, pyStr]

theorem except_map_ok_inv {ε α β : Type} {f : α → β} {x : Except ε α} {b : β}
    (h : Except.map f x = .ok b) : ∃ a, x = .ok a ∧ b = f a := by
  cases x with
  | error e => cases h
  | ok a =>
    refine ⟨a, rfl, ?_⟩
    cases h
    rfl

/-- C8: the Normalization Orchestrator preserves the row count and the
per-index row correspondence, replaces each of the eighteen listed
columns by its cleaner's output on the corresponding input column, and
leaves the value of every non-listed column of every row untouched; the
listed column names are exactly the eighteen required columns. -/
theorem clean_data_spec (df df₁ : Frame) (h : clean_data df = .ok df₁) :
    df₁.rows.length = df.rows.length
    ∧ (∀ i c, c ∉ cleaners.map Prod.fst →
        lookupD (df₁.rows.getD i []) c = lookupD (df.rows.getD i []) c)
    ∧ (∀ c, c ∉ cleaners.map Prod.fst → getCol df₁.rows c = getCol df.rows c)
    ∧ (∀ p ∈ cleaners, runCleaner p.2 (getCol df.rows p.1) = .ok (getCol df₁.rows p.1))
    ∧ cleaners.map Prod.fst = required_columns := by
  obtain ⟨rs, hcd, hdf⟩ := except_map_ok_inv h
  subst hdf
  obtain ⟨ha, hb, he, hrun, -, -, -⟩ :=
    runSeq_ok_spec cleaners (by decide) df.rows rs hcd
  exact ⟨ha, he, hb, hrun, by decide⟩

/-- Shared concrete witness fixture: one raw row with all eighteen
required columns. -/
def rowW : Row :=
  [("id", .str "1"), ("name", .str "  Loft  "), ("host_id", .str "2"),
   ("host_name", .null), ("neighbourhood_group", .str "g"),
   ("neighbourhood", .str "n"), ("latitude", .str "40.7"),
   ("longitude", .str "-73.9"), ("room_type", .str "room"),
   ("price", .str "100"), ("minimum_nights", .str "2"),
   ("number_of_reviews", .str "5"), ("last_review", .str "2023-01-01"),
   ("reviews_per_month", .str "0.5"),
   ("calculated_host_listings_count", .str "1"),
   ("availability_365", .str "100"), ("number_of_reviews_ltm", .str "3"),
   ("license", .null)]

/-- Witness fixture: a frame with the required columns plus an extra one. -/
def rawFrameW : Frame :=
  ⟨required_columns ++ ["extra"], [rowW ++ [("extra", .str "keep")]]⟩

/-- Witness fixture: the cleaned version of `rawFrameW`. -/
def cleanedFrameW : Frame :=
  match clean_data rawFrameW with
  | .ok d => d
  | .error _ => ⟨[], []⟩

/-- C8 witness: on the concrete frame, the extra column's value in row 0
is untouched by normalization. -/
theorem clean_data_spec_witness :
    lookupD (cleanedFrameW.rows.getD 0 []) "extra"
      = lookupD (rawFrameW.rows.getD 0 []) "extra" :=
  (clean_data_spec rawFrameW cleanedFrameW rfl).2.1 0 "extra" (by decide)

/-- C9: column normalization is order independent — applying the eighteen
column/cleaner pairs in any permutation of the registry order to a batch
in which every listed column is present produces the identical result,
because no cleaner reads any column but its own. -/
theorem clean_data_order_independent (σ : List (String × Cleaner))
    (hσ : List.Perm σ cleaners) (rows : List Row) (hg : GoodRows rows) :
    runSeq σ (.ok rows) = cleanDataRows rows :=
  runSeq_perm_congr hσ (fun x hx => hσ.mem_iff.mp hx) (.ok rows)
    (fun rows₀ h₀ => by cases h₀; exact hg)

/-- C9 witness: swapping the first two cleaners on a concrete one-row
batch gives the registry-order result. -/
theorem clean_data_order_independent_witness :
    runSeq (("name", Cleaner.nameC) :: ("id", Cleaner.listingId) :: cleaners.drop 2)
        (.ok [rowW])
      = cleanDataRows [rowW] :=
  clean_data_order_independent _ (by decide) [rowW] (by decide)

/-- C1: on a fully normalized batch (the output of `clean_data` on a raw
batch that does not already carry a `reject_reason` column), a row is
rejected if and only if its price is the missing-float marker `NaN`;
rejected rows appear in original relative order, each augmented with
`reject_reason = "Invalid price"`; accepted rows appear in original
relative order and carry no `reject_reason` field. -/
theorem reject_bad_rows_admission (raw df : Frame)
    (h1 : clean_data raw = .ok df)
    (h2 : ∀ r ∈ raw.rows, "reject_reason" ∉ keys r) :
    (reject_bad_rows df).2.rows
      = (df.rows.filter (fun r => lookupD r "price" == Value.naFloat)).map
          (fun r => setField r "reject_reason" (.str "Invalid price"))
    ∧ (∀ r ∈ (reject_bad_rows df).2.rows,
        lookupD r "reject_reason" = .str "Invalid price")
    ∧ (reject_bad_rows df).1.rows
      = df.rows.filter (fun r => !(lookupD r "price" == Value.naFloat))
    ∧ (∀ r ∈ (reject_bad_rows df).1.rows, "reject_reason" ∉ keys r) := by
  obtain ⟨rs, hcd, hdf⟩ := except_map_ok_inv h1
  subst hdf
  obtain ⟨-, -, -, hrun, -, -, hnotin⟩ :=
    runSeq_ok_spec cleaners (by decide) raw.rows rs hcd
  have hpr := hrun ("price", .price) (by decide)
  simp only [runCleaner, Except.ok.injEq] at hpr
  have hmask : ∀ r ∈ rs, badPrice r = (lookupD r "price" == Value.naFloat) := by
    intro r hr
    have hmem : lookupD r "price" ∈ getCol rs "price" :=
      List.mem_map_of_mem (fun r => lookupD r "price") hr
    rw [← hpr] at hmem
    obtain ⟨v₀, -, hv₀⟩ := List.mem_map.mp hmem
    rcases cleanPriceVal_shape v₀ with hs | ⟨q, hs⟩ <;>
      rw [hs] at hv₀ <;> rw [badPrice, ← hv₀] <;> rfl
  refine ⟨?_, ?_, ?_, ?_⟩
  · show ((rs.filter badPrice).map _) = _
    rw [List.filter_congr hmask]
  · intro r hr
    obtain ⟨r₀, -, heq⟩ := List.mem_map.mp hr
    rw [← heq, lookupD_setField_self]
  · show rs.filter (fun r => !(badPrice r)) = _
    refine List.filter_congr ?_
    intro r hr
    rw [hmask r hr]
  · intro r hr
    have hr' : r ∈ rs := List.mem_of_mem_filter hr
    exact hnotin "reject_reason" (by decide) h2 r hr'

/-- Witness fixture: `rowW` with an unparseable price. -/
def rowA : Row := setField rowW "price" (.str "abc")

/-- Witness fixture: a validated raw frame whose single row has a bad
price, and its cleaned version. -/
def rawFrameA : Frame := ⟨required_columns, [rowA]⟩

/-- Witness fixture: the cleaned version of `rawFrameA`. -/
def cleanedFrameA : Frame :=
  match clean_data rawFrameA with
  | .ok d => d
  | .error _ => ⟨[], []⟩

/-- C1 witness: on the concrete cleaned frame, the rejected batch is the
augmented image of exactly the `NaN`-price rows. -/
theorem reject_bad_rows_admission_witness :
    (reject_bad_rows cleanedFrameA).2.rows
      = (cleanedFrameA.rows.filter (fun r => lookupD r "price" == Value.naFloat)).map
          (fun r => setField r "reject_reason" (.str "Invalid price")) :=
  (reject_bad_rows_admission rawFrameA cleanedFrameA rfl (by decide)).1

/-- C7 counterexample: the price normalizer is not idempotent on its own
output.  `clean_price` maps the string `"0.00001"` to the float `1e-05`;
re-applying it stringifies that float in scientific notation (`"1e-05"`),
the regex keeps only `[0-9.\-]` leaving the unparseable residue `"1-05"`,
and the value collapses to the missing-float marker. -/
theorem clean_price_not_idempotent :
    cleanPriceVal (.str "0.00001") = .num ⟨1, 5⟩
    ∧ cleanPriceVal (.num ⟨1, 5⟩) = .naFloat
    ∧ cleanPriceVal (cleanPriceVal (.str "0.00001")) ≠ cleanPriceVal (.str "0.00001") :=
  ⟨rfl, rfl, by decide⟩

/-- C7 amended: every Column Normalizer except the price normalizer is
idempotent on any value it produced (the identifier cleaners at column
level, the rest element-wise), and the Normalization Orchestrator is
idempotent on every normalized batch whose price values survive
re-normalization — which holds for fixed-notation prices but fails for
scientific-notation floats such as `1e-05`. -/
theorem clean_data_idempotent_amended :
    (∀ ph v, cleanTextVal ph (cleanTextVal ph v) = cleanTextVal ph v)
    ∧ (∀ v, toNumericVal (toNumericVal v) = toNumericVal v)
    ∧ (∀ v, toDatetimeVal (toDatetimeVal v) = toDatetimeVal v)
    ∧ (∀ vs ws, clean_listing_id vs = .ok ws → clean_listing_id ws = .ok ws)
    ∧ (∀ rows rows₁, cleanDataRows rows = .ok rows₁ →
        (∀ v ∈ getCol rows₁ "price", cleanPriceVal v = v) →
        cleanDataRows rows₁ = .ok rows₁) := by
  refine ⟨cleanTextVal_idem, toNumericVal_idem, toDatetimeVal_idem,
    fun vs ws h => clean_listing_id_out_idem h, ?_⟩
  intro rows rows₁ h hp
  obtain ⟨-, -, -, hrun, hpres, -, -⟩ :=
    runSeq_ok_spec cleaners (by decide) rows rows₁ h
  refine runSeq_fixpoint cleaners rows₁ ?_ hpres
  intro p hpmem
  refine runCleaner_out_idem (hrun p hpmem) ?_
  intro hprice
  have hname : p.1 = "price" := by
    have : ∀ q ∈ cleaners, q.2 = Cleaner.price → q.1 = "price" := by decide
    exact this p hpmem hprice
  rw [hname]
  exact hp

/-- C7 witness: on a concrete batch whose normalized price is the
fixed-notation float `100`, a second normalization pass is the
identity. -/
theorem clean_data_idempotent_amended_witness :
    cleanDataRows (match cleanDataRows [rowW] with | .ok rs => rs | .error _ => [])
      = .ok (match cleanDataRows [rowW] with | .ok rs => rs | .error _ => []) :=
  clean_data_idempotent_amended.2.2.2.2 [rowW] _ rfl (by decide)

end Ingestion
